import Mathlib

/-!
Shallow embedding of the bulk job-execution engine
(`run_bulk_jobs.py` and `cs_util.py`) and proofs about it.

Strings are modelled as `List Char`; Python string methods
(`str.replace`, `str.split`, `str.strip`, substring test `in`, ...)
are modelled by executable functions with the documented Python
semantics.  Exceptions are modelled by `Option`/`Except`: a `none`
(resp. `Except.error`) result is an exception escaping the function.
External collaborators (the database lookup, the filesystem, the
environment predicates and the output of spawned shell commands) are
oracle parameters.
-/

namespace Bulk

/-- Strings are lists of characters. -/
abbrev Str := List Char

/-- A Python `dict[str, str]`, as an insertion-ordered association list. -/
abbrev Dict := List (Str × Str)

/-- Python whitespace recognised by `str.strip()`. -/
def isPySpace (c : Char) : Bool :=
  c = ' ' || c = '\t' || c = '\n' || c = '\r' || c = '\x0b' || c = '\x0c'

/-- Python `s.strip()`: remove leading and trailing whitespace. -/
def pyStrip (s : Str) : Str :=
  ((s.dropWhile isPySpace).reverse.dropWhile isPySpace).reverse

/-- Python `s.lower()` (ASCII). -/
def pyLower (s : Str) : Str := s.map Char.toLower

/-- Find the first occurrence of `pat` in `s`: returns the part strictly
before the occurrence and the part strictly after it. -/
def splitFirst (pat : Str) : Str → Option (Str × Str)
  | [] => Option.none
  | c :: rest =>
    if pat.isPrefixOf (c :: rest) then
      Option.some ([], (c :: rest).drop pat.length)
    else
      match splitFirst pat rest with
      | Option.none => Option.none
      | Option.some (pre, post) => Option.some (c :: pre, post)

theorem splitFirst_eq_append {pat : Str} :
    ∀ {s pre post : Str}, splitFirst pat s = Option.some (pre, post) →
      s = pre ++ pat ++ post := by
  intro s
  induction s with
  | nil => intro pre post h; simp [splitFirst] at h
  | cons c rest ih =>
    intro pre post h
    rw [splitFirst] at h
    by_cases hp : pat.isPrefixOf (c :: rest) = true
    · rw [if_pos hp] at h
      simp only [Option.some.injEq, Prod.mk.injEq] at h
      obtain ⟨h1, h2⟩ := h
      subst h1
      have hpre : pat <+: (c :: rest) := List.isPrefixOf_iff_prefix.mp hp
      have hap := List.prefix_iff_eq_append.mp hpre
      simp only [List.nil_append]
      rw [← h2, hap]
    · rw [if_neg hp] at h
      cases hsf : splitFirst pat rest with
      | none => rw [hsf] at h; exact absurd h (by simp)
      | some pr =>
        rw [hsf] at h
        obtain ⟨pre', post'⟩ := pr
        simp only [Option.some.injEq, Prod.mk.injEq] at h
        obtain ⟨h1, h2⟩ := h
        subst h2
        have := ih hsf
        rw [← h1]
        simp [this]

theorem splitFirst_length_lt {pat : Str} (hpat : pat ≠ []) :
    ∀ {s pre post : Str}, splitFirst pat s = Option.some (pre, post) →
      post.length < s.length := by
  intro s pre post h
  have := splitFirst_eq_append h
  subst this
  have : 0 < pat.length := List.length_pos.mpr hpat
  simp only [List.length_append]
  omega

theorem splitFirst_isSome_of_occurrence {pat : Str} (hpat : pat ≠ []) :
    ∀ {s : Str}, pat <:+: s → (splitFirst pat s).isSome = true := by
  intro s
  induction s with
  | nil =>
    intro h
    exact absurd (List.eq_nil_of_infix_nil h) hpat
  | cons c rest ih =>
    intro h
    rw [splitFirst]
    by_cases hp : pat.isPrefixOf (c :: rest) = true
    · rw [if_pos hp]; rfl
    · rw [if_neg hp]
      obtain ⟨u, v, huv⟩ := h
      cases u with
      | nil =>
        exfalso
        apply hp
        exact List.isPrefixOf_iff_prefix.mpr ⟨v, by simpa using huv⟩
      | cons d u' =>
        have : pat <:+: rest := by
          refine ⟨u', v, ?_⟩
          have := huv
          simp only [List.cons_append] at this
          exact (List.cons.injEq .. ▸ this).2
        have := ih this
        cases hsf : splitFirst pat rest with
        | none => rw [hsf] at this; simp at this
        | some pr => simp

theorem splitFirst_eq_none_of_no_occurrence {pat s : Str}
    (h : ¬ pat <:+: s) : splitFirst pat s = Option.none := by
  cases hsf : splitFirst pat s with
  | none => rfl
  | some pr =>
    exfalso
    apply h
    obtain ⟨pre, post⟩ := pr
    exact ⟨pre, post, (splitFirst_eq_append hsf).symm⟩

theorem substring_of_splitFirst_isSome {pat s : Str}
    (h : (splitFirst pat s).isSome = true) : pat <:+: s := by
  cases hsf : splitFirst pat s with
  | none => rw [hsf] at h; simp at h
  | some pr =>
    obtain ⟨pre, post⟩ := pr
    exact ⟨pre, post, (splitFirst_eq_append hsf).symm⟩

/-- Fuel-indexed worker for `pySplit`.  The fuel only serves to make the
recursion structural; `s.length` fuel is always sufficient. -/
def pySplitAux (sep : Str) : Nat → Str → List Str
  | 0, s => [s]
  | fuel + 1, s =>
    match splitFirst sep s with
    | Option.none => [s]
    | Option.some (pre, post) => pre :: pySplitAux sep fuel post

/-- Python `s.split(sep)` for a non-empty separator `sep` (Python raises
on an empty separator; we return `[s]` in that unused case). -/
def pySplit (s sep : Str) : List Str :=
  if sep = [] then [s] else pySplitAux sep s.length s

theorem pySplitAux_fuel {sep : Str} (hsep : sep ≠ []) :
    ∀ (f : Nat) (s : Str), s.length ≤ f →
      pySplitAux sep f s = pySplitAux sep s.length s := by
  intro f
  induction f using Nat.strong_induction_on with
  | _ f ih =>
    intro s hf
    match f, s with
    | 0, s =>
      have : s = [] := List.eq_nil_of_length_eq_zero (Nat.le_zero.mp hf)
      subst this; rfl
    | f + 1, [] =>
      simp [pySplitAux, splitFirst]
    | f + 1, c :: rest =>
      have hf' : rest.length + 1 ≤ f + 1 := by simpa using hf
      cases hsf : splitFirst sep (c :: rest) with
      | none => simp only [List.length_cons, pySplitAux, hsf]
      | some pr =>
        obtain ⟨pre, post⟩ := pr
        have hlt : post.length < rest.length + 1 := by
          simpa using splitFirst_length_lt hsep hsf
        have h1 : pySplitAux sep f post = pySplitAux sep post.length post :=
          ih f (Nat.lt_succ_self f) post (by omega)
        have h2 : pySplitAux sep rest.length post = pySplitAux sep post.length post :=
          ih rest.length (by omega) post (by omega)
        simp only [List.length_cons, pySplitAux, hsf, h1, h2]

/-- One-step unfolding of `pySplit`. -/
theorem pySplit_eq {sep : Str} (hsep : sep ≠ []) (s : Str) :
    pySplit s sep =
      match splitFirst sep s with
      | Option.none => [s]
      | Option.some (pre, post) => pre :: pySplit post sep := by
  rw [pySplit, if_neg hsep]
  cases s with
  | nil => simp [pySplitAux, splitFirst]
  | cons c rest =>
    cases hsf : splitFirst sep (c :: rest) with
    | none => simp only [List.length_cons, pySplitAux, hsf]
    | some pr =>
      obtain ⟨pre, post⟩ := pr
      have hlt : post.length < rest.length + 1 := by
        simpa using splitFirst_length_lt hsep hsf
      simp only [List.length_cons, pySplitAux, hsf]
      rw [pySplit, if_neg hsep, pySplitAux_fuel hsep rest.length post (by omega)]

theorem pySplit_ne_nil {s sep : Str} : pySplit s sep ≠ [] := by
  rw [pySplit]
  by_cases h : sep = []
  · rw [if_pos h]; simp
  · rw [if_neg h]
    cases s with
    | nil => simp [pySplitAux, splitFirst]
    | cons c rest =>
      cases hsf : splitFirst sep (c :: rest) with
      | none => simp [pySplitAux, hsf]
      | some pr => obtain ⟨pre, post⟩ := pr; simp [pySplitAux, hsf]

/-- Fuel-indexed worker for `pyReplace`; `s.length` fuel is always
sufficient. -/
def pyReplaceAux (pat repl : Str) : Nat → Str → Str
  | 0, s => s
  | fuel + 1, s =>
    match splitFirst pat s with
    | Option.none => s
    | Option.some (pre, post) => pre ++ repl ++ pyReplaceAux pat repl fuel post

/-- Python `s.replace(pat, repl)` for a non-empty pattern: replace every
occurrence, scanning left to right without overlap and without
re-scanning the replacement text. -/
def pyReplace (s pat repl : Str) : Str :=
  if pat = [] then s else pyReplaceAux pat repl s.length s

theorem pyReplaceAux_fuel {pat repl : Str} (hpat : pat ≠ []) :
    ∀ (f : Nat) (s : Str), s.length ≤ f →
      pyReplaceAux pat repl f s = pyReplaceAux pat repl s.length s := by
  intro f
  induction f using Nat.strong_induction_on with
  | _ f ih =>
    intro s hf
    match f, s with
    | 0, s =>
      have : s = [] := List.eq_nil_of_length_eq_zero (Nat.le_zero.mp hf)
      subst this; rfl
    | f + 1, [] =>
      simp [pyReplaceAux, splitFirst]
    | f + 1, c :: rest =>
      have hf' : rest.length + 1 ≤ f + 1 := by simpa using hf
      cases hsf : splitFirst pat (c :: rest) with
      | none => simp only [List.length_cons, pyReplaceAux, hsf]
      | some pr =>
        obtain ⟨pre, post⟩ := pr
        have hlt : post.length < rest.length + 1 := by
          simpa using splitFirst_length_lt hpat hsf
        have h1 : pyReplaceAux pat repl f post = pyReplaceAux pat repl post.length post :=
          ih f (Nat.lt_succ_self f) post (by omega)
        have h2 : pyReplaceAux pat repl rest.length post =
            pyReplaceAux pat repl post.length post :=
          ih rest.length (by omega) post (by omega)
        simp only [List.length_cons, pyReplaceAux, hsf, h1, h2]

/-- One-step unfolding of `pyReplace`. -/
theorem pyReplace_eq {pat : Str} (hpat : pat ≠ []) (s repl : Str) :
    pyReplace s pat repl =
      match splitFirst pat s with
      | Option.none => s
      | Option.some (pre, post) => pre ++ repl ++ pyReplace post pat repl := by
  rw [pyReplace, if_neg hpat]
  cases s with
  | nil => simp [pyReplaceAux, splitFirst]
  | cons c rest =>
    cases hsf : splitFirst pat (c :: rest) with
    | none => simp only [List.length_cons, pyReplaceAux, hsf]
    | some pr =>
      obtain ⟨pre, post⟩ := pr
      have hlt : post.length < rest.length + 1 := by
        simpa using splitFirst_length_lt hpat hsf
      simp only [List.length_cons, pyReplaceAux, hsf]
      rw [pyReplace, if_neg hpat, pyReplaceAux_fuel hpat rest.length post (by omega)]

theorem pyReplace_of_no_occurrence {pat : Str} (hpat : pat ≠ []) {s : Str}
    (h : ¬ pat <:+: s) (repl : Str) : pyReplace s pat repl = s := by
  rw [pyReplace_eq hpat, splitFirst_eq_none_of_no_occurrence h]

/-- Python substring test `pat in s`. -/
def pyContains (pat s : Str) : Bool :=
  pat.isEmpty || (splitFirst pat s).isSome

theorem pyContains_iff_substring {pat s : Str} :
    pyContains pat s = true ↔ pat <:+: s := by
  constructor
  · intro h
    rw [pyContains] at h
    cases hpat : pat.isEmpty with
    | true =>
      have : pat = [] := by simpa [List.isEmpty_iff] using hpat
      subst this
      exact List.nil_infix
    | false =>
      rw [hpat, Bool.false_or] at h
      exact substring_of_splitFirst_isSome h
  · intro h
    rw [pyContains]
    cases hpat : pat.isEmpty with
    | true => simp
    | false =>
      have hne : pat ≠ [] := by
        intro he; subst he; simp at hpat
      rw [Bool.false_or]
      exact splitFirst_isSome_of_occurrence hne h

/-- Worker for `pySplitWs`, carrying the (reversed) current word. -/
def pySplitWsAux : Str → Str → List Str
  | cur, [] => if cur = [] then [] else [cur.reverse]
  | cur, c :: rest =>
    if isPySpace c then
      if cur = [] then pySplitWsAux [] rest else cur.reverse :: pySplitWsAux [] rest
    else
      pySplitWsAux (c :: cur) rest

/-- Python `s.split()` with no argument: split on runs of whitespace,
discarding empty pieces. -/
def pySplitWs (s : Str) : List Str := pySplitWsAux [] s

/-- Python `key in d` for a `dict`. -/
def memDict (d : Dict) (k : Str) : Bool := d.any (fun kv => kv.1 == k)

/-- Python `d[k] = v`: update in place if the key exists (keeping its
position), otherwise append a new entry. -/
def dictSet (d : Dict) (k v : Str) : Dict :=
  if memDict d k then d.map (fun kv => if kv.1 == k then (k, v) else kv)
  else d ++ [(k, v)]

theorem mem_dictSet {d : Dict} {k v : Str} {kv : Str × Str}
    (h : kv ∈ dictSet d k v) : kv ∈ d ∨ kv.2 = v := by
  rw [dictSet] at h
  by_cases hm : memDict d k = true
  · rw [if_pos hm] at h
    obtain ⟨kv', hkv', heq⟩ := List.mem_map.mp h
    by_cases he : kv'.1 == k
    · rw [if_pos he] at heq; right; rw [← heq]
    · rw [if_neg he] at heq; left; rw [← heq]; exact hkv'
  · rw [if_neg hm] at h
    rcases List.mem_append.mp h with h | h
    · left; exact h
    · right; simp at h; rw [h]

/-- External collaborators of `cs_util.py`, as oracles: the environment
predicates, `os.getenv('WORKING_JOBS_DIR')`, `os.path.exists`, and the
raw bytes written to stdout by a spawned shell command. -/
structure Env where
  userIsProd : Bool
  machineIsProd : Bool
  workingJobsDir : Option Str
  pathExists : Str → Bool
  rawOut : Str → Str

/-- `cs_util.check_valid_line`: a line is valid unless it is blank or
starts with a comment marker. -/
def check_valid_line (line : Str) : Bool :=
  !(pyStrip line = [] || "#".toList.isPrefixOf line || "//".toList.isPrefixOf line)

/-- `cs_util.get_unix_command_output`: run a command, return its decoded
stripped stdout, or `""` when the command produced no output. -/
def get_unix_command_output (e : Env) (unix_cmd : Str) : Str :=
  let output := e.rawOut unix_cmd
  if output = [] then [] else pyStrip output

/-- ASCII apostrophe, kept out of string literals. -/
def squote : Char := Char.ofNat 39

/-- `cs_util.publish_to_runjob`.  `Except.error ()` models an exception
escaping the function (`IndexError` from `split()[1]`, `ValueError` from
unpacking `split('-')` into two names); `Except.ok Option.none` models the
`return None` fall-through when neither CFG file exists. -/
def publish_to_runjob (e : Env) (publish_cmd : Str) : Except Unit (Option Str) :=
  let dir_name := (if e.userIsProd then "/NAS/mis/jobs".toList
                   else e.workingJobsDir.getD "None".toList) ++ "/all/publish/scpt".toList
  match (pySplitWs publish_cmd).get? 1 with
  | Option.none => Except.error ()
  | Option.some w =>
    match pySplit (pyLower w) "-".toList with
    | [pub_name, pub_id] =>
      let possible_cfg := dir_name ++ "/".toList ++ pub_name ++ "-".toList ++ pub_id
                            ++ "_publish.cfg".toList
      if e.pathExists possible_cfg then
        Except.ok (Option.some ("runjob all_publish ".toList ++ pub_name ++ "-".toList
          ++ pub_id ++ "_publish".toList))
      else
        let possible_cfg2 := (pySplit possible_cfg "-".toList).flatten
        if e.pathExists possible_cfg2 then
          Except.ok (Option.some ("runjob all_publish ".toList ++ pub_name ++ pub_id
            ++ "_publish".toList))
        else Except.ok Option.none
    | _ => Except.error ()

/-- The shell pipeline `ls -ltr {base_dir}/{identifier}* | tail -1
| awk .{print $NF}.` built by `get_runjob_logfile`. -/
def mkLogfileCommand (base_dir identifier : Str) : Str :=
  "ls -ltr ".toList ++ base_dir ++ "/".toList ++ identifier ++ "* | tail -1 ".toList
    ++ "| awk ".toList ++ [squote] ++ "\x7bprint $NF\x7d".toList ++ [squote]

/-- The error sentinel returned by `get_runjob_logfile` on any exception. -/
def logfileErrorSentinel : Str := "<LOGFILE RETRIEVAL ERROR>".toList

/-- The `try` block of `cs_util.get_runjob_logfile`, with
`Except.error ()` for any raised exception. -/
def runjobLogfileBody (e : Env) (runjob_cmd0 : Str) : Except Unit Str :=
  match
      (if "publish".toList.isPrefixOf runjob_cmd0 then
        match publish_to_runjob e runjob_cmd0 with
        | Except.error _ => Except.error ()
        | Except.ok Option.none => Except.error ()
        | Except.ok (Option.some c) =>
          if c = [] then Except.error () else Except.ok c
      else Except.ok runjob_cmd0 : Except Unit Str)
    with
    | Except.error _ => Except.error ()
    | Except.ok runjob_cmd =>
      let words := pySplitWs runjob_cmd
      match words.get? 1 with
      | Option.none => Except.error ()
      | Option.some w1 =>
        let is_srg := w1 = "srg".toList
        match words.get? 2 with
        | Option.none => Except.error ()
        | Option.some identifier =>
          let is_prod := e.machineIsProd
          let base_dir := (if is_prod then "/NAS/mis/".toList else "/NAS/mis/tmp/_".toList)
                            ++ (if is_srg then "srg".toList else "jobs/".toList)
          if is_prod then
            if is_srg then
              let get_srg_name_command :=
                "ls -d ".toList ++ base_dir ++ "/*/ | grep ".toList ++ identifier
              match (pySplit (get_unix_command_output e get_srg_name_command)
                  "/NAS/mis/srg/".toList).get? 1 with
              | Option.none => Except.error ()
              | Option.some piece =>
                let srg_name := piece.dropLast
                Except.ok ("/NAS/mis/srg/".toList ++ [squote] ++ srg_name ++ [squote]
                  ++ "/logs/logfile.txt".toList)
            else
              let pieces := pySplit w1 "_".toList
              match pieces.get? 1 with
              | Option.none => Except.error ()
              | Option.some p1 =>
                let base_dir2 := base_dir ++ pieces.headD [] ++ "/".toList ++ p1
                                   ++ "/log".toList
                Except.ok (get_unix_command_output e (mkLogfileCommand base_dir2 identifier))
          else
            let base_dir2 := if ¬ is_srg then base_dir ++ w1 else base_dir
            Except.ok (get_unix_command_output e (mkLogfileCommand base_dir2 identifier))

/-- `cs_util.get_runjob_logfile`: the `try` block, and an `except`
handler returning the fixed sentinel on any exception. -/
def get_runjob_logfile (e : Env) (runjob_cmd0 : Str) : Str :=
  match runjobLogfileBody e runjob_cmd0 with
  | Except.ok r => r
  | Except.error _ => logfileErrorSentinel

/-- The job-name transformation at the top of
`cs_artifact.get_srg_runjob_command`:
`f"mis_{job_nm.split(./.)[-1].split(.praa.)[-1].split(..ctl.)[0]}_00_c"`. -/
def srgJobName (job_nm : Str) : Str :=
  "mis_".toList ++
    (pySplit ((pySplit ((pySplit job_nm "/".toList).getLastD [])
      "praa".toList).getLastD []) ".ctl".toList).headD []
  ++ "_00_c".toList

/-- `cs_artifact.get_srg_runjob_command`, with the SQL query modelled by
the oracle `db` mapping the canonical job name to the rows returned.
More than one row: warning, `return None`.  No rows: an exception is
raised and immediately caught by the function's own handler, `return
None`.  Exactly one row: its `RUNJOB_CMD` value is returned. -/
def get_srg_runjob_command (db : Str → List Str) (job_nm : Str) : Option Str :=
  let data := db (srgJobName job_nm)
  if data.length > 1 then Option.none
  else
    match data with
    | [x] => Option.some x
    | _ => Option.none

/-- Step 1 of `run_bulk_jobs.scrub_line`: a 4-character alphanumeric job
code is expanded to `praa{line}.ctl`. -/
def scrubExpand (line : Str) : Str :=
  if line.length = 4 ∧ line.all Char.isAlphanum then
    "praa".toList ++ line ++ ".ctl".toList
  else line

/-- Step 2 of `run_bulk_jobs.scrub_line`: `line.replace("./", "")`. -/
def stripRelPath (line : Str) : Str := pyReplace line "./".toList []

/-- Step 3 of `run_bulk_jobs.scrub_line`: a `praa`-prefixed name is
rewritten to its absolute path, appending `.ctl` when absent. -/
def scrubPraa (line : Str) : Str :=
  if "praa".toList.isPrefixOf line then
    "/NAS/mis/esp/scripts/".toList ++ line
      ++ (if ".ctl".toList.isSuffixOf line then [] else ".ctl".toList)
  else line

/-- Steps 1-3 of `run_bulk_jobs.scrub_line` (the pure rewriting part). -/
def scrubTransformed (line : Str) : Str := scrubPraa (stripRelPath (scrubExpand line))

/-- `run_bulk_jobs.scrub_line`.  A `none` result models an uncaught
exception (the `IndexError` from
`line.split('/NAS/mis/esp/scripts/praa')[1][1]` when the split finds no
separator or yields a short piece).  On the SRG branch, a falsy result
from `get_srg_runjob_command` returns the original line with
`skip_ctl = True`. -/
def scrub_line (db : Str → List Str) (line0 : Str) : Option (Str × Bool) :=
  let original_line := line0
  let line := scrubTransformed line0
  if pyContains ".ctl".toList line then
    match (pySplit line "/NAS/mis/esp/scripts/praa".toList).get? 1 with
    | Option.none => Option.none
    | Option.some piece =>
      match piece.get? 1 with
      | Option.none => Option.none
      | Option.some ch =>
        if ch = 'i' then
          match get_srg_runjob_command db line with
          | Option.none => Option.some (original_line, true)
          | Option.some cmd =>
            if cmd = [] then Option.some (original_line, true)
            else Option.some (cmd, false)
        else Option.some (line, false)
  else Option.some (line, false)

/-- `run_bulk_jobs.has_logfile`: a command is trackable iff it contains
`runjob` or `publish` as a substring. -/
def has_logfile (command : Str) : Bool :=
  ["runjob".toList, "publish".toList].any (fun script => pyContains script command)

/-- The values a command's outcome can take in the orchestrator's
result loop: Python `None`, the string `'SKIPPED'`, or a bool. -/
inductive PyVal where
  | none
  | skipped
  | bool (b : Bool)
deriving DecidableEq

/-- `cs_util.run_command_async` for one task: the dedup membership test
on `results_dict`, then (when not skipped) one spawned subprocess whose
exit code is `returncode`.  Returns the Python return value, the
`results_dict` state after the call, and the number of subprocesses
spawned by the call. -/
def run_command_async (returncode : Int) (command : Str) (results_dict : Dict) :
    (Str × PyVal) × Dict × Nat :=
  if memDict results_dict command then ((command, PyVal.skipped), results_dict, 0)
  else ((command, PyVal.bool (decide (returncode ≠ 0))), results_dict, 1)

/-- One event-loop step: the task with index `i` runs
`run_command_async` against the current `results_dict` state; its result
is recorded in the completion log and the spawn counter updated. -/
def execStep (exits : Nat → Int) (commands : List Str)
    (acc : Dict × List (Nat × (Str × PyVal)) × Nat) (i : Nat) :
    Dict × List (Nat × (Str × PyVal)) × Nat :=
  let r := run_command_async (exits i) (commands.getD i []) acc.1
  (r.2.1, acc.2.1 ++ [(i, r.1)], acc.2.2 + r.2.2)

/-- The event loop: the tasks complete in the order given by `order`
(an arbitrary interleaving), threading the shared `results_dict`. -/
def execLoop (exits : Nat → Int) (commands : List Str) (order : List Nat) (d : Dict) :
    Dict × List (Nat × (Str × PyVal)) × Nat :=
  order.foldl (execStep exits commands) (d, [], 0)

/-- `asyncio.gather`: results are delivered indexed by task position,
not completion order.  A slot no task completed for (impossible when
every task runs) is the `PyVal.none` of a task that never produced a
terminal value. -/
def gather (n : Nat) (log : List (Nat × (Str × PyVal))) : List (Str × PyVal) :=
  (List.range n).map (fun i => (List.lookup i log).getD ([], PyVal.none))

/-- `cs_util.run_commands_async`: fan out one task per command, let them
complete in the order `order`, and gather the results in task order.
Returns the gathered `(command, failed)` list, the final `results_dict`
state, and the total number of subprocesses spawned. -/
def run_commands_async (exits : Nat → Int) (order : List Nat)
    (commands : List Str) (results_dict : Dict) :
    List (Str × PyVal) × Dict × Nat :=
  let st := execLoop exits commands order results_dict
  (gather commands.length st.2.1, st.1, st.2.2)

/-- The SKIPPED / FAILURE / SUCCESS / LONGRUN status strings. -/
def statusSkipped : Str := "SKIPPED".toList
def statusFailure : Str := "FAILURE".toList
def statusSuccess : Str := "SUCCESS".toList
def statusLongrun : Str := "LONGRUN".toList

/-- One iteration of the orchestrator's result loop
(`for ind, (command, failed) in enumerate(result_tuples)`): branch on
`failed is None` / `failed == 'SKIPPED'` / truthiness, writing the
terminal status into `results_dict` and bumping the counters
`(failure_count, skipped_count)`. -/
def postStep (acc : Dict × Nat × Nat) (r : Str × PyVal) : Dict × Nat × Nat :=
  match r.2 with
  | PyVal.none => (dictSet acc.1 r.1 statusLongrun, acc.2.1 + 1, acc.2.2)
  | PyVal.skipped => (acc.1, acc.2.1, acc.2.2 + 1)
  | PyVal.bool true => (dictSet acc.1 r.1 statusFailure, acc.2.1 + 1, acc.2.2)
  | PyVal.bool false => (dictSet acc.1 r.1 statusSuccess, acc.2.1, acc.2.2)

/-- The orchestrator's result loop over the gathered tuples. -/
def postLoop (results : List (Str × PyVal)) (d : Dict) : Dict × Nat × Nat :=
  results.foldl postStep (d, 0, 0)

/-- One iteration of the scrub loop: `lines[ind], skip_ctl =
scrub_line(lines[ind].strip())`, seeding `results_dict[lines[ind]] =
"SKIPPED"` for excluded lines.  `none` models the uncaught exception
from `scrub_line` aborting the whole run. -/
def scrubStep (db : Str → List Str) (acc : List Str × Dict) (raw : Str) :
    Option (List Str × Dict) :=
  match scrub_line db (pyStrip raw) with
  | Option.none => Option.none
  | Option.some (cmd, skip) =>
    Option.some (acc.1 ++ [cmd],
      if skip then dictSet acc.2 cmd statusSkipped else acc.2)

/-- The scrub loop over all (already filtered) input lines. -/
def scrubPhase (db : Str → List Str) (lines : List Str) : Option (List Str × Dict) :=
  lines.foldlM (scrubStep db) ([], [])

/-- Outcome of one full batch run: the gathered result tuples, the final
`results_dict`, and the failure / skipped counters. -/
structure BatchResult where
  results : List (Str × PyVal)
  dict : Dict
  failures : Nat
  skips : Nat
deriving DecidableEq

/-- The `__main__` pipeline of `run_bulk_jobs.py` after input
validation: scrub every line (seeding `results_dict` for exclusions),
run all commands through `run_commands_async`, then classify each
result tuple.  `none` models a scrub-time exception aborting the run. -/
def runBatch (db : Str → List Str) (exits : Nat → Int) (order : List Nat)
    (lines : List Str) : Option BatchResult :=
  match scrubPhase db lines with
  | Option.none => Option.none
  | Option.some (cmds, seed) =>
    let ex := run_commands_async exits order cmds seed
    let post := postLoop ex.1 ex.2.1
    Option.some ⟨ex.1, post.1, post.2.1, post.2.2⟩

/-- `os.path.dirname` (posix): everything up to the last `/`, with
trailing slashes stripped unless the head is all slashes. -/
def pyDirname (p : Str) : Str :=
  let head := p.take (p.length - (p.reverse.takeWhile (fun c => c ≠ '/')).length)
  if head ≠ [] ∧ ¬ head.all (fun c => c = '/') then
    (head.reverse.dropWhile (fun c => c = '/')).reverse
  else head

/-- An invocation of `run_bulk_jobs.py`: `sys.argv`, the
production-acting-user predicate, `os.path.exists`, and the lines
`open(...).readlines()` yields (`none` when `open` raises). -/
structure Invocation where
  argv : List Str
  userIsProd : Bool
  pathExists : Str → Bool
  fileLines : Str → Option (List Str)

/-- The ways `run_bulk_jobs.py` terminates without completing a batch:
the two explicit `sys.exit(1)` calls, an uncaught exception from
`open`, and an uncaught exception from `scrub_line`.  All four exit the
process with a non-zero status. -/
inductive ExitKind where
  | usage
  | badPath
  | openFail
  | scrubCrash
deriving DecidableEq

/-- The validation prefix of `__main__` (lines 61-85): argument-count
and jira-id checks, the `os.path.exists(os.path.dirname(...))` check,
then `open` + `filter(cs_util.check_valid_line, f.readlines())`. -/
def mainPrelude (inv : Invocation) : Except ExitKind (List Str) :=
  let missing_jira_id := inv.userIsProd && decide (inv.argv.length < 3)
  if ¬ (inv.argv.length = 2 ∨ inv.argv.length = 3) ∨ missing_jira_id = true then
    Except.error ExitKind.usage
  else
    let input_filename := inv.argv.getD 1 []
    if ¬ inv.pathExists (pyDirname input_filename) = true then
      Except.error ExitKind.badPath
    else
      match inv.fileLines input_filename with
      | Option.none => Except.error ExitKind.openFail
      | Option.some raw => Except.ok (raw.filter check_valid_line)

/-- `run_bulk_jobs.py` end to end: validation prefix, then the batch
pipeline. -/
def fullMain (inv : Invocation) (db : Str → List Str) (exits : Nat → Int)
    (order : List Nat) : Except ExitKind BatchResult :=
  match mainPrelude inv with
  | Except.error e => Except.error e
  | Except.ok lines =>
    match runBatch db exits order lines with
    | Option.none => Except.error ExitKind.scrubCrash
    | Option.some out => Except.ok out

theorem run_command_async_dict (rc : Int) (c : Str) (d : Dict) :
    (run_command_async rc c d).2.1 = d := by
  rw [run_command_async]; split <;> rfl

theorem run_command_async_fst (rc : Int) (c : Str) (d : Dict) :
    (run_command_async rc c d).1.1 = c := by
  rw [run_command_async]; split <;> rfl

theorem run_command_async_spawn (rc : Int) (c : Str) (d : Dict) :
    (run_command_async rc c d).2.2 = if memDict d c then 0 else 1 := by
  rw [run_command_async]
  by_cases hm : memDict d c = true
  · rw [if_pos hm, if_pos hm]
  · rw [if_neg hm, if_neg hm]

theorem run_command_async_outcome (rc : Int) (c : Str) (d : Dict) :
    (run_command_async rc c d).1.2 =
      if memDict d c then PyVal.skipped else PyVal.bool (decide (rc ≠ 0)) := by
  rw [run_command_async]
  by_cases hm : memDict d c = true
  · rw [if_pos hm, if_pos hm]
  · rw [if_neg hm, if_neg hm]

/-- The event loop never changes `results_dict` (no task writes to it);
the log records each task's result against the initial dictionary, and
one process is spawned per task whose command is not already a key. -/
theorem execLoop_go (exits : Nat → Int) (commands : List Str) :
    ∀ (order : List Nat) (d : Dict) (log0 : List (Nat × (Str × PyVal))) (k0 : Nat),
      order.foldl (execStep exits commands) (d, log0, k0) =
        (d,
         log0 ++ order.map
           (fun i => (i, (run_command_async (exits i) (commands.getD i []) d).1)),
         k0 + order.countP (fun i => ! memDict d (commands.getD i []))) := by
  intro order
  induction order with
  | nil => intro d log0 k0; simp
  | cons i rest ih =>
    intro d log0 k0
    rw [List.foldl_cons]
    have hstep : execStep exits commands (d, log0, k0) i =
        (d, log0 ++ [(i, (run_command_async (exits i) (commands.getD i []) d).1)],
         k0 + (if memDict d (commands.getD i []) then 0 else 1)) := by
      rw [execStep, run_command_async_dict, run_command_async_spawn]
    rw [hstep, ih, List.map_cons, List.countP_cons]
    simp only [Prod.mk.injEq]
    refine ⟨trivial, by simp, ?_⟩
    simp only [List.getD_eq_getElem?_getD]
    cases hm : memDict d (commands[i]?.getD []) <;> (simp [hm]; try omega)

theorem execLoop_spec (exits : Nat → Int) (commands : List Str)
    (order : List Nat) (d : Dict) :
    execLoop exits commands order d =
      (d,
       order.map (fun i => (i, (run_command_async (exits i) (commands.getD i []) d).1)),
       order.countP (fun i => ! memDict d (commands.getD i []))) := by
  rw [execLoop, execLoop_go]
  simp

theorem lookup_map_self (f : Nat → Str × PyVal) :
    ∀ (l : List Nat) (i : Nat), i ∈ l →
      List.lookup i (l.map (fun a => (a, f a))) = Option.some (f i) := by
  intro l
  induction l with
  | nil => intro i h; simp at h
  | cons a rest ih =>
    intro i h
    rw [List.map_cons, List.lookup_cons]
    by_cases he : i = a
    · subst he; simp
    · have hne : (i == a) = false := by simpa using he
      simp only [hne]
      rcases List.mem_cons.mp h with h | h
      · exact absurd h he
      · exact ih i h

/-- Result slot `i` of `run_commands_async` is exactly task `i`'s
return value, whenever every task index completes. -/
theorem run_commands_async_getD (exits : Nat → Int) (order : List Nat)
    (commands : List Str) (d : Dict) (i : Nat) (hi : i < commands.length)
    (horder : order.Perm (List.range commands.length)) :
    (run_commands_async exits order commands d).1.getD i ([], PyVal.none) =
      (run_command_async (exits i) (commands.getD i []) d).1 := by
  rw [run_commands_async, execLoop_spec]
  simp only [gather]
  have hmem : i ∈ order := horder.mem_iff.mpr (List.mem_range.mpr hi)
  rw [List.getD_eq_getElem?_getD, List.getElem?_map, List.getElem?_range hi]
  simp only [Option.map_some', Option.getD_some]
  rw [lookup_map_self
    (fun i => (run_command_async (exits i) (commands.getD i []) d).1) order i hmem]
  rfl

theorem map_getD_range (l : List Str) :
    (List.range l.length).map (fun i => l.getD i []) = l := by
  apply List.ext_getElem
  · simp
  · intro i h1 h2
    simp [List.getElem?_eq_getElem h2]

/-- The gathered result sequence lists exactly the input commands, in
input order, whenever every task index completes. -/
theorem run_commands_async_map_fst (exits : Nat → Int) (order : List Nat)
    (commands : List Str) (d : Dict)
    (horder : order.Perm (List.range commands.length)) :
    (run_commands_async exits order commands d).1.map Prod.fst = commands := by
  rw [run_commands_async, execLoop_spec]
  simp only [gather, List.map_map]
  have hlen : (run_commands_async exits order commands d).1.length = commands.length := by
    rw [run_commands_async, execLoop_spec]; simp [gather]
  refine Eq.trans (List.map_congr_left ?_) (map_getD_range commands)
  intro i hi
  have hi' : i < commands.length := List.mem_range.mp hi
  have hmem : i ∈ order := horder.mem_iff.mpr hi
  simp only [Function.comp]
  rw [lookup_map_self
    (fun i => (run_command_async (exits i) (commands.getD i []) d).1) order i hmem]
  simp only [Option.getD_some]
  exact run_command_async_fst ..

/-- C2: For every input sequence of commands and every possible
completion order of the concurrently spawned processes, the sequence of
(command, outcome) pairs returned by `run_commands_async` is in the
same order as the input commands sequence. -/
theorem c2_results_in_input_order (exits : Nat → Int) (order : List Nat)
    (commands : List Str) (results_dict : Dict)
    (horder : order.Perm (List.range commands.length)) :
    (run_commands_async exits order commands results_dict).1.map Prod.fst = commands :=
  run_commands_async_map_fst exits order commands results_dict horder

theorem c2_witness :
    (run_commands_async (fun _ => 1) [1, 0] ["a".toList, "b".toList] []).1.map Prod.fst
      = ["a".toList, "b".toList] :=
  c2_results_in_input_order (fun _ => 1) [1, 0] ["a".toList, "b".toList] [] (by decide)

/-- C10: The concurrent executor never mutates the shared results map:
for every commands list, completion order and `results_dict`,
`run_commands_async` (and each `run_command_async` call) leaves
`results_dict` exactly as it was seeded before the call. -/
theorem c10_executor_never_mutates_results_dict (exits : Nat → Int) (order : List Nat)
    (commands : List Str) (results_dict : Dict) :
    (run_commands_async exits order commands results_dict).2.1 = results_dict ∧
    ∀ (rc : Int) (command : Str),
      (run_command_async rc command results_dict).2.1 = results_dict := by
  constructor
  · rw [run_commands_async, execLoop_spec]
  · intro rc command
    exact run_command_async_dict rc command results_dict

/-- C8: `has_logfile command` is true if and only if `command` contains
the `runjob` token or the `publish` token as a substring. -/
theorem c8_has_logfile_iff_token_substring (command : Str) :
    has_logfile command = true ↔
      ("runjob".toList <:+: command ∨ "publish".toList <:+: command) := by
  rw [has_logfile]
  simp only [List.any_cons, List.any_nil, Bool.or_false, Bool.or_eq_true]
  rw [pyContains_iff_substring, pyContains_iff_substring]

theorem postLoop_go_no_longrun :
    ∀ (results : List (Str × PyVal)) (acc : Dict × Nat × Nat),
      (∀ r ∈ results, r.2 ≠ PyVal.none) →
      (∀ kv ∈ acc.1, kv.2 ≠ statusLongrun) →
      ∀ kv ∈ (results.foldl postStep acc).1, kv.2 ≠ statusLongrun := by
  intro results
  induction results with
  | nil => intro acc _ hacc; simpa using hacc
  | cons r rest ih =>
    intro acc hres hacc
    rw [List.foldl_cons]
    apply ih
    · intro x hx
      exact hres x (List.mem_cons_of_mem r hx)
    · intro kv hkv
      have hr : r.2 ≠ PyVal.none := hres r (List.mem_cons_self r rest)
      cases hv : r.2 with
      | none => exact absurd hv hr
      | skipped =>
        simp only [postStep, hv] at hkv
        exact hacc kv hkv
      | bool b =>
        cases b with
        | true =>
          simp only [postStep, hv] at hkv
          rcases mem_dictSet hkv with h | h
          · exact hacc kv h
          · rw [h]; decide
        | false =>
          simp only [postStep, hv] at hkv
          rcases mem_dictSet hkv with h | h
          · exact hacc kv h
          · rw [h]; decide

/-- C5: Without an external deadline wrapper (that is, when every
spawned task completes), the executor's per-command outcome is never
the `None` "no terminal signal" value, so the orchestrator's `LONGRUN`
branch is unreachable: no entry of the final results map is `LONGRUN`
(given, as in the source, that none was seeded as `LONGRUN`). -/
theorem c5_longrun_unreachable (exits : Nat → Int) (order : List Nat)
    (commands : List Str) (results_dict : Dict)
    (horder : order.Perm (List.range commands.length))
    (hseed : ∀ kv ∈ results_dict, kv.2 ≠ statusLongrun) :
    (∀ r ∈ (run_commands_async exits order commands results_dict).1,
       r.2 ≠ PyVal.none) ∧
    (∀ kv ∈ (postLoop (run_commands_async exits order commands results_dict).1
        (run_commands_async exits order commands results_dict).2.1).1,
       kv.2 ≠ statusLongrun) := by
  have houtcome : ∀ r ∈ (run_commands_async exits order commands results_dict).1,
      r.2 ≠ PyVal.none := by
    intro r hr
    rw [run_commands_async, execLoop_spec] at hr
    simp only [gather, List.mem_map, List.mem_range] at hr
    obtain ⟨i, hi, hr⟩ := hr
    have hmem : i ∈ order := horder.mem_iff.mpr (List.mem_range.mpr hi)
    rw [lookup_map_self
      (fun i => (run_command_async (exits i) (commands.getD i []) results_dict).1)
      order i hmem] at hr
    simp only [Option.getD_some] at hr
    rw [← hr]
    rw [run_command_async_outcome]
    by_cases hm : memDict results_dict (commands.getD i []) = true
    · rw [if_pos hm]; intro hc; exact absurd hc (by simp)
    · rw [if_neg hm]; intro hc; exact absurd hc (by simp)
  refine ⟨houtcome, ?_⟩
  apply postLoop_go_no_longrun _ _ houtcome
  have hdict : (run_commands_async exits order commands results_dict).2.1
      = results_dict := by
    rw [run_commands_async, execLoop_spec]
  rw [hdict]
  exact hseed

theorem c5_witness :
    (∀ r ∈ (run_commands_async (fun _ => 1) [0] ["ls".toList] []).1,
       r.2 ≠ PyVal.none) ∧
    (∀ kv ∈ (postLoop (run_commands_async (fun _ => 1) [0] ["ls".toList] []).1
        (run_commands_async (fun _ => 1) [0] ["ls".toList] []).2.1).1,
       kv.2 ≠ statusLongrun) :=
  c5_longrun_unreachable (fun _ => 1) [0] ["ls".toList] [] (by decide)
    (fun kv hkv => nomatch hkv)

/-- C1 counterexample: a batch of two identical canonical, non-excluded
commands (`results_dict` empty).  The second occurrence is NOT reported
`SKIPPED` (it carries an ordinary bool outcome) and two subprocesses
are spawned, not one: nothing ever writes to `results_dict` during the
gather, so the dedup membership test never fires for in-batch
duplicates. -/
theorem c1_counterexample :
    ((run_commands_async (fun _ => 0) [0, 1] ["x".toList, "x".toList] []).1.getD 1
        ([], PyVal.none)).2 ≠ PyVal.skipped ∧
    (run_commands_async (fun _ => 0) [0, 1] ["x".toList, "x".toList] []).2.2 = 2 := by
  decide

/-- C1 (amended): a command's outcome is `SKIPPED` exactly when the
command was already a key of `results_dict` when the batch was
dispatched (as happens for commands seeded `SKIPPED` by the scrub
phase); one subprocess is spawned per completing task whose command is
not such a key — so in-batch duplicates that are not pre-seeded all
spawn. -/
theorem c1_amended_skip_iff_preseeded (exits : Nat → Int) (order : List Nat)
    (commands : List Str) (results_dict : Dict) (i : Nat)
    (hi : i < commands.length)
    (horder : order.Perm (List.range commands.length)) :
    (((run_commands_async exits order commands results_dict).1.getD i
        ([], PyVal.none)).2 = PyVal.skipped
      ↔ memDict results_dict (commands.getD i []) = true) ∧
    (run_commands_async exits order commands results_dict).2.2 =
      order.countP (fun j => ! memDict results_dict (commands.getD j [])) := by
  constructor
  · rw [run_commands_async_getD exits order commands results_dict i hi horder,
      run_command_async_outcome]
    by_cases hm : memDict results_dict (commands.getD i []) = true
    · rw [if_pos hm]
      exact ⟨fun _ => hm, fun _ => rfl⟩
    · rw [if_neg hm]
      constructor
      · intro hcon; exact absurd hcon (by simp)
      · intro hcon; exact absurd hcon hm
  · rw [run_commands_async, execLoop_spec]

theorem c1_amended_witness :
    (((run_commands_async (fun _ => 0) [0] ["a".toList]
        [("a".toList, statusSkipped)]).1.getD 0 ([], PyVal.none)).2 = PyVal.skipped
      ↔ memDict [("a".toList, statusSkipped)] (["a".toList].getD 0 []) = true) ∧
    (run_commands_async (fun _ => 0) [0] ["a".toList]
        [("a".toList, statusSkipped)]).2.2 =
      List.countP (fun j =>
        ! memDict [("a".toList, statusSkipped)] (["a".toList].getD j [])) [0] :=
  c1_amended_skip_iff_preseeded (fun _ => 0) [0] ["a".toList]
    [("a".toList, statusSkipped)] 0 (by decide) (by decide)

theorem splitFirst_self_append {pat rest : Str} (hpat : pat ≠ []) :
    splitFirst pat (pat ++ rest) = Option.some ([], rest) := by
  cases pat with
  | nil => exact absurd rfl hpat
  | cons p ps =>
    rw [List.cons_append, splitFirst]
    have hpre : (p :: ps).isPrefixOf (p :: (ps ++ rest)) = true :=
      List.isPrefixOf_iff_prefix.mpr ⟨rest, by simp⟩
    rw [if_pos hpre]
    simp only [List.length_cons, List.drop_succ_cons, List.drop_left]

/-- C6 counterexample: the line `a./b` has no leading `./` marker, so
by the claim it should pass through unchanged; the code's
`line.replace("./", "")` nevertheless removes the non-leading
occurrence. -/
theorem c6_counterexample :
    stripRelPath "a./b".toList = "ab".toList ∧
    stripRelPath "a./b".toList ≠ "a./b".toList := by
  decide

/-- C6 (amended): normalization step 2 removes every occurrence of
`./`, scanning left to right: a leading `./` is stripped, and a line
with no occurrence at all is left unchanged — but non-leading
occurrences are removed too (see the counterexample). -/
theorem c6_amended_replace_all (s : Str) :
    stripRelPath ("./".toList ++ s) = stripRelPath s ∧
    (¬ "./".toList <:+: s → stripRelPath s = s) := by
  constructor
  · have hsf : splitFirst "./".toList ("./".toList ++ s) = Option.some ([], s) :=
      splitFirst_self_append (by decide)
    rw [stripRelPath, stripRelPath, pyReplace_eq (by decide)]
    simp only [hsf, List.nil_append]
  · intro h
    rw [stripRelPath]
    exact pyReplace_of_no_occurrence (by decide) h []

theorem c6_amended_witness : stripRelPath "ab".toList = "ab".toList :=
  (c6_amended_replace_all "ab".toList).2 (by decide)

theorem isPrefixOf_eq_false_of_head_ne {p c : Char} {ps cs : Str}
    (h : p ≠ c) : (p :: ps).isPrefixOf (c :: cs) = false := by
  rw [List.isPrefixOf_cons₂]
  have hb : (p == c) = false := by simpa using h
  rw [hb, Bool.false_and]

theorem splitFirst_append_none {pat B : Str} (hB : splitFirst pat B = Option.none) :
    ∀ A : Str, (∀ t, t ≠ [] → t <:+ A → pat.isPrefixOf (t ++ B) = false) →
      splitFirst pat (A ++ B) = Option.none := by
  intro A
  induction A with
  | nil => intro _; simpa using hB
  | cons c A' ih =>
    intro hA
    have hc : pat.isPrefixOf (c :: (A' ++ B)) = false := by
      have h := hA (c :: A') (by simp) (List.suffix_refl _)
      simpa using h
    have hrest : splitFirst pat (A' ++ B) = Option.none :=
      ih (fun t ht hs => hA t ht (hs.trans (List.suffix_cons c A')))
    rw [List.cons_append, splitFirst, hc, hrest]
    simp

theorem alnum_ne_dot_slash {c : Char} (h : c.isAlphanum = true) :
    c ≠ '.' ∧ c ≠ '/' := by
  refine ⟨fun he => ?_, fun he => ?_⟩
  · subst he; exact absurd h (by decide)
  · subst he; exact absurd h (by decide)

/-- The canonical descriptor path produced by normalization for the
4-character job code `code`. -/
def canonCtl (code : Str) : Str :=
  "/NAS/mis/esp/scripts/praa".toList ++ code ++ ".ctl".toList

/-- C7 counterexample: `normalize("..//")` yields the canonical output
`("./", exclude=false)`, but normalizing the already-canonical `./`
again yields `""`, not `./`: normalization is not idempotent on its own
canonical output. -/
theorem c7_counterexample :
    scrub_line (fun _ => []) "..//".toList = Option.some ("./".toList, false) ∧
    scrub_line (fun _ => []) "./".toList = Option.some (([] : Str), false) ∧
    ("./".toList : Str) ≠ ([] : Str) := by
  decide

/-- C7 (amended): normalization is idempotent on the canonical
descriptor paths it produces from 4-character alphanumeric job codes
whose second character is not `i` (the non-SRG case): re-applying
`scrub_line` to such a canonical command returns it unchanged with
`exclude = false`.  Idempotence fails for canonical outputs that still
contain `./` or other re-triggering shapes (see the counterexample). -/
theorem c7_amended_idempotent_on_canonical (db : Str → List Str) (code : Str)
    (hlen : code.length = 4) (hal : code.all Char.isAlphanum = true)
    (hi2 : code.get? 1 ≠ Option.some 'i') :
    scrub_line db (canonCtl code) = Option.some (canonCtl code, false) := by
  have hmemc : ∀ c ∈ code, c ≠ '.' ∧ c ≠ '/' := fun c hc =>
    alnum_ne_dot_slash (List.all_eq_true.mp hal c hc)
  have hylen : (canonCtl code).length = 33 := by
    simp [canonCtl, hlen]
  -- step 1: the 4-character expansion does not fire
  have hexp : scrubExpand (canonCtl code) = canonCtl code := by
    rw [scrubExpand, if_neg]
    intro hcontra
    rw [hylen] at hcontra
    exact absurd hcontra.1 (by decide)
  -- step 2: there is no occurrence of "./" anywhere in the path
  have hstrip : stripRelPath (canonCtl code) = canonCtl code := by
    rw [stripRelPath, canonCtl, pyReplace_eq (by decide)]
    have hnone : splitFirst "./".toList
        (("/NAS/mis/esp/scripts/praa".toList ++ code) ++ ".ctl".toList) =
        Option.none := by
      apply splitFirst_append_none (by decide)
      intro t ht hsuf
      cases t with
      | nil => exact absurd rfl ht
      | cons c t' =>
        have hcmem : c ∈ "/NAS/mis/esp/scripts/praa".toList ++ code :=
          hsuf.subset (List.mem_cons_self c t')
        have hcne : '.' ≠ c := by
          rcases List.mem_append.mp hcmem with h | h
          · intro he; rw [← he] at h; exact absurd h (by decide)
          · intro he; exact absurd he.symm (hmemc c h).1
        rw [List.cons_append]
        exact isPrefixOf_eq_false_of_head_ne hcne
    rw [hnone]
  -- step 3: the absolute path does not start with "praa"
  have hpraa : scrubPraa (canonCtl code) = canonCtl code := by
    rw [scrubPraa, if_neg]
    intro hcontra
    rw [canonCtl, List.append_assoc] at hcontra
    have hfalse : ("praa".toList).isPrefixOf
        ("/NAS/mis/esp/scripts/praa".toList ++ (code ++ ".ctl".toList)) = false :=
      isPrefixOf_eq_false_of_head_ne (by decide)
    rw [hfalse] at hcontra
    exact absurd hcontra (by decide)
  have htrans : scrubTransformed (canonCtl code) = canonCtl code := by
    rw [scrubTransformed, hexp, hstrip, hpraa]
  -- the ".ctl" guard fires
  have hcontains : pyContains ".ctl".toList (canonCtl code) = true := by
    apply pyContains_iff_substring.mpr
    exact ⟨"/NAS/mis/esp/scripts/praa".toList ++ code, [], by simp [canonCtl]⟩
  -- the split around the canonical prefix yields ["", code ++ ".ctl"]
  have hsf1 : splitFirst "/NAS/mis/esp/scripts/praa".toList (canonCtl code) =
      Option.some ([], code ++ ".ctl".toList) := by
    rw [canonCtl, List.append_assoc]
    exact splitFirst_self_append (by decide)
  have hsf2 : splitFirst "/NAS/mis/esp/scripts/praa".toList
      (code ++ ".ctl".toList) = Option.none := by
    apply splitFirst_append_none (by decide)
    intro t ht hsuf
    cases t with
    | nil => exact absurd rfl ht
    | cons c t' =>
      have hcmem : c ∈ code := hsuf.subset (List.mem_cons_self c t')
      have hcne : '/' ≠ c := fun he => absurd he.symm (hmemc c hcmem).2
      rw [List.cons_append]
      exact isPrefixOf_eq_false_of_head_ne hcne
  have hsplit : pySplit (canonCtl code) "/NAS/mis/esp/scripts/praa".toList =
      [[], code ++ ".ctl".toList] := by
    rw [pySplit_eq (by decide) (canonCtl code)]
    simp only [hsf1]
    rw [pySplit_eq (by decide)]
    simp only [hsf2]
  -- the character inspected at position 1 is the code's second character
  obtain ⟨ch, hch⟩ : ∃ ch, code.get? 1 = Option.some ch := by
    cases hg : code.get? 1 with
    | none =>
      have := List.get?_eq_none.mp hg
      omega
    | some ch => exact ⟨ch, rfl⟩
  have hpieceget : (code ++ ".ctl".toList).get? 1 = Option.some ch := by
    rw [List.get?_eq_getElem?, List.getElem?_append_left (by omega),
      ← List.get?_eq_getElem?, hch]
  have hchne : ¬ ch = 'i' := fun he => hi2 (by rw [hch, he])
  -- assemble
  simp only [scrub_line, htrans, hcontains, if_true, hsplit]
  simp only [List.get?_cons_succ, List.get?_cons_zero, Option.some.injEq]
  simp only [hpieceget]
  rw [if_neg hchne]

theorem c7_amended_witness :
    scrub_line (fun _ => []) (canonCtl "1234".toList) =
      Option.some (canonCtl "1234".toList, false) :=
  c7_amended_idempotent_on_canonical (fun _ => []) "1234".toList
    (by decide) (by decide) (by decide)

/-- C3 counterexample: the raw line `x.ctl` contains `.ctl` but not the
canonical `/NAS/mis/esp/scripts/praa` prefix, so
`line.split('/NAS/mis/esp/scripts/praa')[1]` raises an uncaught
`IndexError`: `scrub_line` does not return a pair and the batch is
aborted. -/
theorem c3_counterexample :
    scrub_line (fun _ => []) "x.ctl".toList = Option.none := by
  decide

/-- The lines on which `scrub_line` cannot hit its `IndexError`: either
the transformed line has no `.ctl` in it, or the split around the
canonical prefix yields a second piece of length at least 2. -/
def scrubSafe (line : Str) : Bool :=
  ! pyContains ".ctl".toList (scrubTransformed line) ||
    (match (pySplit (scrubTransformed line)
        "/NAS/mis/esp/scripts/praa".toList).get? 1 with
     | Option.none => false
     | Option.some piece => decide (2 ≤ piece.length))

/-- C3 (amended): for every raw line on which the `.ctl` guard's
indexing is in range (`scrubSafe`), `scrub_line` terminates normally
and returns a (command, exclude) pair, and on any normalization failure
(the SRG lookup resolving to nothing) it returns the original line with
`exclude = true`; but for lines containing `.ctl` without a well-formed
canonical prefix it raises an uncaught exception that aborts the batch
(see the counterexample). -/
theorem c3_amended_scrub_totality (db : Str → List Str) (line : Str)
    (h : scrubSafe line = true) :
    (scrub_line db line).isSome = true ∧
    (∀ cmd, scrub_line db line = Option.some (cmd, true) → cmd = line) := by
  by_cases hc : pyContains ".ctl".toList (scrubTransformed line) = true
  · rw [scrubSafe, hc] at h
    simp only [Bool.not_true, Bool.false_or] at h
    cases hm : (pySplit (scrubTransformed line)
        "/NAS/mis/esp/scripts/praa".toList).get? 1 with
    | none => rw [hm] at h; exact absurd h (by decide)
    | some piece =>
      rw [hm] at h
      have hplen : 2 ≤ piece.length := by simpa using h
      obtain ⟨ch, hch⟩ : ∃ ch, piece.get? 1 = Option.some ch := by
        cases hg : piece.get? 1 with
        | none =>
          have := List.get?_eq_none.mp hg
          omega
        | some ch => exact ⟨ch, rfl⟩
      simp only [scrub_line, hc, if_true, hm, hch]
      by_cases hi : ch = 'i'
      · rw [if_pos hi]
        cases hdb : get_srg_runjob_command db (scrubTransformed line) with
        | none => exact ⟨rfl, fun cmd hcmd => by
            simp only [Option.some.injEq, Prod.mk.injEq] at hcmd
            exact hcmd.1.symm⟩
        | some cmd0 =>
          simp only [hdb]
          by_cases hnil : cmd0 = []
          · rw [if_pos hnil]
            exact ⟨rfl, fun cmd hcmd => by
              simp only [Option.some.injEq, Prod.mk.injEq] at hcmd
              exact hcmd.1.symm⟩
          · rw [if_neg hnil]
            refine ⟨rfl, fun cmd hcmd => ?_⟩
            simp only [Option.some.injEq, Prod.mk.injEq] at hcmd
            exact absurd hcmd.2.symm (by decide)
      · rw [if_neg hi]
        refine ⟨rfl, fun cmd hcmd => ?_⟩
        simp only [Option.some.injEq, Prod.mk.injEq] at hcmd
        exact absurd hcmd.2.symm (by decide)
  · simp only [scrub_line]
    rw [if_neg hc]
    refine ⟨rfl, fun cmd hcmd => ?_⟩
    simp only [Option.some.injEq, Prod.mk.injEq] at hcmd
    exact absurd hcmd.2.symm (by decide)

theorem c3_amended_witness :
    (scrub_line (fun _ => []) "1234".toList).isSome = true ∧
    (∀ cmd, scrub_line (fun _ => []) "1234".toList = Option.some (cmd, true) →
      cmd = "1234".toList) :=
  c3_amended_scrub_totality (fun _ => []) "1234".toList (by decide)

theorem get_unix_command_output_ne_nil {e : Env}
    (h : ∀ c, pyStrip (e.rawOut c) ≠ []) :
    ∀ c, get_unix_command_output e c ≠ [] := by
  intro c
  simp only [get_unix_command_output]
  by_cases ho : e.rawOut c = []
  · exfalso
    apply h c
    rw [ho]
    rfl
  · rw [if_neg ho]
    exact h c

theorem runjobLogfileBody_ok_ne_nil {e : Env}
    (h : ∀ c, pyStrip (e.rawOut c) ≠ []) (cmd : Str) :
    ∀ r, runjobLogfileBody e cmd = Except.ok r → r ≠ [] := by
  intro r heq
  have hu : ∀ c, get_unix_command_output e c ≠ [] := get_unix_command_output_ne_nil h
  simp only [runjobLogfileBody] at heq
  repeat' split at heq
  all_goals first
    | exact Except.noConfusion heq
    | (injection heq with heq; subst heq; first
        | exact hu _
        | simp)

/-- C4 counterexample: on a non-production machine with a shell whose
listing command produces no output, `get_runjob_logfile` for the
trackable command `runjob a_b c` returns the empty string — neither a
non-empty log path nor the error sentinel. -/
theorem c4_counterexample :
    get_runjob_logfile ⟨false, false, Option.none, fun _ => false, fun _ => []⟩
      "runjob a_b c".toList = [] ∧
    logfileErrorSentinel ≠ ([] : Str) := by
  decide

/-- C4 (amended): `get_runjob_logfile` never propagates an exception —
any internal failure yields the fixed error sentinel — and its result
is the sentinel, a constructed SRG log path, or the stripped output of
the computed listing command; the latter is empty exactly when the
underlying command output strips to empty, so whenever every consulted
shell command yields non-empty stripped output, the reported value is
never empty. -/
theorem c4_amended_nonempty_or_sentinel (e : Env) (cmd : Str)
    (h : ∀ c, pyStrip (e.rawOut c) ≠ []) :
    get_runjob_logfile e cmd ≠ [] := by
  rw [get_runjob_logfile]
  cases hb : runjobLogfileBody e cmd with
  | error u =>
    simp only [hb]
    decide
  | ok r =>
    simp only [hb]
    exact runjobLogfileBody_ok_ne_nil h cmd r hb

theorem c4_amended_witness :
    get_runjob_logfile ⟨false, false, Option.none, fun _ => false,
      fun _ => "x".toList⟩ "runjob a_b c".toList ≠ [] :=
  c4_amended_nonempty_or_sentinel _ _ (fun c => by
    show pyStrip "x".toList ≠ []
    decide)

/-- C9: For every invocation with a malformed argument list — wrong
argument count, a production-acting caller missing the supplementary
jira identifier, an input path whose directory does not exist, or a
file that cannot be opened — the run terminates with a non-batch exit
(never reaching normalization or execution: the outcome is one fixed
validation exit, identical for every database, exit-code and
completion-order oracle). -/
theorem c9_invalid_invocation_exits (inv : Invocation)
    (h : ¬ (inv.argv.length = 2 ∨ inv.argv.length = 3) ∨
         (inv.userIsProd = true ∧ inv.argv.length < 3) ∨
         inv.pathExists (pyDirname (inv.argv.getD 1 [])) = false ∨
         inv.fileLines (inv.argv.getD 1 []) = Option.none) :
    ∃ e, e ≠ ExitKind.scrubCrash ∧
      ∀ (db : Str → List Str) (exits : Nat → Int) (order : List Nat),
        fullMain inv db exits order = Except.error e := by
  by_cases hu : ¬ (inv.argv.length = 2 ∨ inv.argv.length = 3) ∨
      (inv.userIsProd && decide (inv.argv.length < 3)) = true
  · refine ⟨ExitKind.usage, by decide, fun db exits order => ?_⟩
    rw [fullMain, mainPrelude, if_pos hu]
  · by_cases hp : inv.pathExists (pyDirname (inv.argv.getD 1 [])) = true
    · cases hf : inv.fileLines (inv.argv.getD 1 []) with
      | none =>
        refine ⟨ExitKind.openFail, by decide, fun db exits order => ?_⟩
        rw [fullMain, mainPrelude, if_neg hu, if_neg (by rw [hp]; intro hc; exact hc rfl)]
        simp only [hf]
      | some raw =>
        exfalso
        rcases h with h | h | h | h
        · exact hu (Or.inl h)
        · exact hu (Or.inr (by simp [h.1, h.2]))
        · rw [hp] at h; exact absurd h (by decide)
        · rw [hf] at h; exact Option.noConfusion h
    · refine ⟨ExitKind.badPath, by decide, fun db exits order => ?_⟩
      rw [fullMain, mainPrelude, if_neg hu, if_pos (by simpa using hp)]

theorem c9_witness :
    ∃ e, e ≠ ExitKind.scrubCrash ∧
      ∀ (db : Str → List Str) (exits : Nat → Int) (order : List Nat),
        fullMain ⟨[], false, fun _ => false, fun _ => Option.none⟩ db exits order =
          Except.error e :=
  c9_invalid_invocation_exits ⟨[], false, fun _ => false, fun _ => Option.none⟩
    (Or.inl (by decide))
